import Mathlib

/-!
Verification of the AirBnB listings data pipeline (AirBnBDataHandler.js and
cli.js).  The JavaScript source is shallowly embedded: JavaScript numbers are
modelled as exact rationals together with an explicit `nan` value (the spec and
the claims speak about the arithmetic content, and `NaN` is the one non-finite
value the control flow of this program can observe); fallible operations
return `Option`.
-/

/-- Model of a JavaScript number as used by this program: either a finite
value (modelled exactly as a rational) or `NaN`.  Infinities never arise in
the pipeline's reachable computations and are not modelled. -/
inductive JSNum where
  | num (q : ℚ)
  | nan
deriving DecidableEq

/-- JavaScript `<` on numbers: any comparison involving `NaN` is false. -/
def jsLt : JSNum → JSNum → Bool
  | .num a, .num b => a < b
  | _, _ => false

/-- JavaScript `>` on numbers: any comparison involving `NaN` is false. -/
def jsGt : JSNum → JSNum → Bool
  | .num a, .num b => b < a
  | _, _ => false

/-- JavaScript `>=` on numbers: any comparison involving `NaN` is false. -/
def jsGe : JSNum → JSNum → Bool
  | .num a, .num b => b ≤ a
  | _, _ => false

/-- JavaScript `<=` on numbers: any comparison involving `NaN` is false. -/
def jsLe : JSNum → JSNum → Bool
  | .num a, .num b => a ≤ b
  | _, _ => false

/-- JavaScript `+` on numbers: `NaN` propagates. -/
def jsAdd : JSNum → JSNum → JSNum
  | .num a, .num b => .num (a + b)
  | _, _ => .nan

/-- JavaScript `/` on numbers; `NaN` propagates.  The zero-denominator branch
(which real JavaScript maps to an infinity) is modelled as `nan`; every call
site in the embedded program guards the denominator against `0` first, so the
branch is unreachable in the pipeline. -/
def jsDiv : JSNum → JSNum → JSNum
  | .num a, .num b => if b = 0 then .nan else .num (a / b)
  | _, _ => .nan

/-- A listing as held by the Listing Store, with the fields the store's
operations read: the three numeric fields named exactly as in the data set
(the filter reads `price`, `bedrooms` and `review_scores_rating`) and the
`host_id` text field (`none` models a missing/undefined `host_id`). -/
structure Listing where
  price : JSNum
  bedrooms : JSNum
  review_scores_rating : JSNum
  host_id : Option String := none
deriving DecidableEq

/-- The filter criteria object of `filterListings`: six independent optional
bounds; `none` models an omitted (`undefined`) bound. -/
structure Criteria where
  minPrice : Option JSNum := none
  maxPrice : Option JSNum := none
  minRooms : Option JSNum := none
  maxRooms : Option JSNum := none
  minReview : Option JSNum := none
  maxReview : Option JSNum := none
deriving DecidableEq

/-- Test `b? !== undefined && x < b?`, the lower-bound rejection test of
`filterListings`. -/
def belowBound (b? : Option JSNum) (x : JSNum) : Bool :=
  match b? with
  | none => false
  | some b => jsLt x b

/-- Test `b? !== undefined && x > b?`, the upper-bound rejection test of
`filterListings`. -/
def aboveBound (b? : Option JSNum) (x : JSNum) : Bool :=
  match b? with
  | none => false
  | some b => jsGt x b

/-- The filter callback of `filterListings`: the chain of early
`return false` checks, one per supplied bound, ending in `return true`. -/
def survivesFilter (c : Criteria) (l : Listing) : Bool :=
  if belowBound c.minPrice l.price then false
  else if aboveBound c.maxPrice l.price then false
  else if belowBound c.minRooms l.bedrooms then false
  else if aboveBound c.maxRooms l.bedrooms then false
  else if belowBound c.minReview l.review_scores_rating then false
  else if aboveBound c.maxReview l.review_scores_rating then false
  else true

/-- `filterListings(filterCriteria)`: replaces the store's listing array
`_listings` with `_listings.filter(callback)`.  The embedding passes the
store state explicitly and returns the replacement state. -/
def filterListings (c : Criteria) (L : List Listing) : List Listing :=
  L.filter (survivesFilter c)

/-- `getListings()`: returns the current listing array unchanged. -/
def getListings (L : List Listing) : List Listing := L

/-- The stats object `{ count, averagePricePerRoom }` returned by
`computeStats`. -/
structure Stats where
  count : Nat
  averagePricePerRoom : JSNum
deriving DecidableEq

/-- `computeStats()`: count, and total price divided by total rooms with a
guard for `count > 0` and for `totalRooms === 0`.  `Number(l.bedrooms)` is the
identity on values that are already numbers, which is what the store-level
listing model carries. -/
def computeStats (L : List Listing) : Stats :=
  let count := L.length
  if count > 0 then
    let totalPrice := L.foldl (fun sum l => jsAdd sum l.price) (JSNum.num 0)
    let totalRooms := L.foldl (fun sum l => jsAdd sum l.bedrooms) (JSNum.num 0)
    let averagePricePerRoom :=
      if totalRooms = JSNum.num 0 then JSNum.num 0 else jsDiv totalPrice totalRooms
    { count := count, averagePricePerRoom := averagePricePerRoom }
  else
    { count := count, averagePricePerRoom := JSNum.num 0 }

/-- One `{ host_id, count }` entry of the host ranking. -/
structure HostCount where
  host_id : String
  count : Nat
deriving DecidableEq

/-- `listing.host_id || 'unknown'`: the only falsy string is the empty
string, and a missing `host_id` (`undefined`) is falsy. -/
def hostKeyOf (l : Listing) : String :=
  match l.host_id with
  | none => "unknown"
  | some s => if s = "" then "unknown" else s

/-- One step of the `reduce` that builds `hostMap`:
`acc[hostKey] = (acc[hostKey] || 0) + 1`.  The accumulator object is modelled
as an association list in key-insertion order (JavaScript objects enumerate
non-index keys in insertion order; none of the proved properties depends on
the enumeration order of the keys). -/
def bumpHost (acc : List (String × Nat)) (k : String) : List (String × Nat) :=
  if acc.any (fun p => p.1 = k) then
    acc.map (fun p => if p.1 = k then (p.1, p.2 + 1) else p)
  else
    acc ++ [(k, 1)]

/-- The `hostMap` accumulation of `computeListingsByHost`. -/
def hostMapOf (L : List Listing) : List (String × Nat) :=
  L.foldl (fun acc l => bumpHost acc (hostKeyOf l)) []

/-- The sort order of the ranking comparator `(a, b) => b.count - a.count`:
`a` may stay before `b` iff `a.count ≥ b.count`. -/
def hostCountGe (a b : HostCount) : Prop := b.count ≤ a.count

instance : DecidableRel hostCountGe := fun a b => Nat.decLe b.count a.count

instance : IsTotal HostCount hostCountGe := ⟨fun a b => Nat.le_total b.count a.count⟩

instance : IsTrans HostCount hostCountGe := ⟨fun _ _ _ h1 h2 => Nat.le_trans h2 h1⟩

/-- `computeListingsByHost()`: build `hostMap`, turn its entries into
`{ host_id, count }` objects, and sort by count descending.  JavaScript's
stable `Array.prototype.sort` is modelled by a stable insertion sort. -/
def computeListingsByHost (L : List Listing) : List HostCount :=
  List.insertionSort hostCountGe ((hostMapOf L).map (fun p => ⟨p.1, p.2⟩))

/-- A call to one of the handler's methods, for the state-effect semantics of
the store. -/
inductive HandlerCall where
  | filterCall (c : Criteria)
  | statsCall
  | byHostCall
  | getListingsCall
deriving DecidableEq

/-- The value a handler method returns (the filter returns the handler object
itself, for chaining). -/
inductive CallResult where
  | handlerResult
  | statsResult (s : Stats)
  | rankingResult (r : List HostCount)
  | listingsResult (L : List Listing)
deriving DecidableEq

/-- The effect of one handler call on the store state `_listings`, paired with
its returned value.  Only `filterListings` contains an assignment to
`_listings` in the source; the other three bodies read it and return a
computed value. -/
def runCall : HandlerCall → List Listing → CallResult × List Listing
  | .filterCall c, L => (.handlerResult, filterListings c L)
  | .statsCall, L => (.statsResult (computeStats L), L)
  | .byHostCall, L => (.rankingResult (computeListingsByHost L), L)
  | .getListingsCall, L => (.listingsResult (getListings L), L)

/-- The store state after a sequence of handler calls. -/
def runCalls (ms : List HandlerCall) (L : List Listing) : List Listing :=
  ms.foldl (fun s m => (runCall m s).2) L

/-- Whether a handler call is one of the read-only views. -/
def readOnlyCall : HandlerCall → Bool
  | .filterCall _ => false
  | _ => true

/-- Whitespace for line trimming (the characters relevant to delimited text
input: space, tab, carriage return). -/
def wsChar (c : Char) : Bool := c = ' ' || c = '\t' || c = '\r'

/-- Trim whitespace from both ends of a line of characters. -/
def trimChars (cs : List Char) : List Char :=
  ((cs.dropWhile wsChar).reverse.dropWhile wsChar).reverse

/-- Split a character list on a separator character; always returns at least
one (possibly empty) group. -/
def splitOnChar (sep : Char) : List Char → List (List Char)
  | [] => [[]]
  | c :: cs =>
    match splitOnChar sep cs with
    | [] => if c = sep then [[], []] else [[c]]
    | g :: gs => if c = sep then [] :: g :: gs else (c :: g) :: gs

/-- A cell value inside a parsed row: raw text as delivered by the CSV row
split, or a number after the handler's coercion. -/
inductive CellVal where
  | text (s : String)
  | numv (x : JSNum)
deriving DecidableEq

/-- A parsed row object: column name to cell value, in column order. -/
abbrev Row := List (String × CellVal)

/-- Property access `row[k]` on a parsed row object. -/
def rowLookup (r : Row) (k : String) : Option CellVal :=
  (r.find? (fun p => p.1 = k)).map (fun p => p.2)

/-- Pair header names with row cells positionally; a row with fewer cells
than the header gets empty text for the missing trailing columns. -/
def mkRow : List String → List String → Row
  | [], _ => []
  | h :: hs, [] => (h, .text "") :: mkRow hs []
  | h :: hs, v :: vs => (h, .text v) :: mkRow hs vs

/-- The regex replace `s.replace(/[^0-9.]/g, '')`: keep only decimal digits
and the decimal point. -/
def stripNonNumeric (s : String) : String :=
  String.mk (s.data.filter (fun c => c.isDigit || c = '.'))

/-- Numeric value of a big-endian list of digit characters. -/
def digitsVal (cs : List Char) : Nat :=
  Nat.ofDigits 10 ((cs.map (fun c => c.toNat - 48)).reverse)

/-- JavaScript `Number()` on the strings this program feeds it (strings made
of digits and dots, the residue of `stripNonNumeric`): the empty string is
`0`; digits with at most one dot and at least one digit parse as a decimal;
anything else is `NaN`.  (The exotic `Number()` forms — exponents,
hexadecimal, `Infinity` — cannot survive `stripNonNumeric` and are outside
the model.) -/
def jsNumberOfText (s : String) : JSNum :=
  let cs := s.data
  if cs = [] then .num 0
  else if cs.all (fun c => c.isDigit) then .num (digitsVal cs)
  else
    match splitOnChar '.' cs with
    | [ip, fp] =>
      if (ip.all (fun c => c.isDigit) && fp.all (fun c => c.isDigit))
          && (!ip.isEmpty || !fp.isEmpty) then
        .num ((digitsVal ip : ℚ) + (digitsVal fp : ℚ) / (10 : ℚ) ^ fp.length)
      else .nan
    | _ => .nan

/-- The price coercion in the `data` handler of `parseCSV`:
`Number(row.price.replace(/[^0-9.]/g, ''))`. -/
def coercePrice (s : String) : JSNum :=
  jsNumberOfText (stripNonNumeric s)

/-- Overwrite the `price` entry of a row with a number
(`row.price = price`). -/
def setPrice (r : Row) (x : JSNum) : Row :=
  r.map (fun p => if p.1 = "price" then (p.1, CellVal.numv x) else p)

/-- The `data` handler of `parseCSV` applied to one row: coerce `row.price`
and store it back.  When the row has no `price` property at all,
`row.price.replace` throws a `TypeError` and the parse does not deliver a
result (`none`).  (The `numv` case cannot arise from the row split, which
produces only text cells; on a number, `Number` is the identity.) -/
def coerceRow (r : Row) : Option Row :=
  match rowLookup r "price" with
  | some (.text s) => some (setPrice r (coercePrice s))
  | some (.numv x) => some (setPrice r x)
  | none => none

/-- The line split of the CSV text: split on newlines and trim each line
(trimming disposes of `\r` line endings; empty lines are skipped by the
caller). -/
def splitCSVLines (csvData : String) : List (List Char) :=
  (splitOnChar '\n' csvData.data).map trimChars

/-- The header names of the CSV text: the comma-split first line. -/
def csvHeaderNames (csvData : String) : List String :=
  match splitCSVLines csvData with
  | [] => []
  | headerLine :: _ => (splitOnChar ',' headerLine).map String.mk

/-- The number of data rows of the CSV text: the lines after the header that
are non-empty after trimming. -/
def dataRowCount (csvData : String) : Nat :=
  match splitCSVLines csvData with
  | [] => 0
  | _ :: rest => (rest.filter (fun l => l ≠ [])).length

/-- The `results` accumulation of `parseCSV`: run the `data` handler on each
row in order and collect the outcomes; a handler that throws aborts the whole
parse. -/
def collectRows : List Row → Option (List Row)
  | [] => some []
  | r :: rs =>
    match coerceRow r with
    | none => none
    | some r' => (collectRows rs).map (fun rest => r' :: rest)

/-- `parseCSV(filePath)`: stream the delimited text through the row splitter
(first line names the columns; each non-empty later line is one data row,
paired with the header positionally) and run the `data` handler on each row;
resolve with the accumulated rows, or fail if a handler throws. -/
def parseCSV (csvData : String) : Option (List Row) :=
  match splitCSVLines csvData with
  | [] => some []
  | headerLine :: rest =>
    let headers := (splitOnChar ',' headerLine).map String.mk
    let dataLines := rest.filter (fun l => l ≠ [])
    collectRows (dataLines.map (fun line => mkRow headers ((splitOnChar ',' line).map String.mk)))

/-- Digit character of a decimal digit value. -/
def digitChar10 (d : Nat) : Char := Char.ofNat (48 + d)

/-- Little-endian base-10 digits, computed with explicit fuel so that the
kernel can evaluate it (`natDigitsRev n n` agrees with `Nat.digits 10 n`). -/
def natDigitsRev : Nat → Nat → List Nat
  | 0, _ => []
  | fuel + 1, n => if n = 0 then [] else n % 10 :: natDigitsRev fuel (n / 10)

/-- Decimal numeral of a natural number, as JavaScript prints an integral
number (no sign, no decimal point, no leading zeros). -/
def natChars (n : Nat) : List Char :=
  if n = 0 then ['0'] else ((natDigitsRev n n).reverse.map digitChar10)

/-- The smallest decimal shift that makes the rational integral, when its
decimal expansion terminates (searching up to the denominator suffices: a
terminating denominator `2^a * 5^b` obeys `max a b ≤ den`). -/
def ratDecExp (q : ℚ) : Option Nat :=
  (List.range (q.den + 1)).find? (fun e => (q * (10 : ℚ) ^ e).den = 1)

/-- Decimal numeral of a non-negative rational with terminating decimal
expansion, as JavaScript prints it: integral values without a decimal point,
fractional values as `intPart.fracPart` with the fraction zero-padded to the
decimal shift. -/
def nnRatChars (q : ℚ) : Option (List Char) :=
  match ratDecExp q with
  | none => none
  | some e =>
    if e = 0 then some (natChars q.num.toNat)
    else
      let N := (q * (10 : ℚ) ^ e).num.toNat
      some (natChars (N / 10 ^ e) ++
        '.' :: (List.replicate (e - (natChars (N % 10 ^ e)).length) '0' ++
          natChars (N % 10 ^ e)))

/-- Decimal numeral of a rational with terminating decimal expansion;
negative values get a leading minus sign. -/
def ratChars (q : ℚ) : Option (List Char) :=
  if q < 0 then (nnRatChars (-q)).map (fun cs => '-' :: cs) else nnRatChars q

/-- The characters `JSON.stringify` emits for a number: `NaN` (like every
non-finite number) is rendered as `null`; a finite value is rendered as its
decimal numeral.  (Every finite double is a dyadic rational, whose decimal
expansion terminates, so on states a JavaScript run can reach the numeral
rendering is total.) -/
def jsonNumChars (x : JSNum) : Option (List Char) :=
  match x with
  | .nan => some ("null".data)
  | .num q => ratChars q

/-- The literal text before the `count` value in the pretty-printed stats
JSON. -/
def statsOpenChars : List Char := "\x7b\n  \"count\": ".data

/-- The literal text between the `count` value and the `averagePricePerRoom`
value in the pretty-printed stats JSON. -/
def statsMidChars : List Char := ",\n  \"averagePricePerRoom\": ".data

/-- The literal text closing the pretty-printed stats JSON. -/
def statsCloseChars : List Char := "\n\x7d".data

/-- `JSON.stringify(stats, null, 2)`: the pretty-printed two-space-indented
rendering of the `{ count, averagePricePerRoom }` object, keys in insertion
order. -/
def statsJsonChars (s : Stats) : Option (List Char) :=
  (jsonNumChars s.averagePricePerRoom).map (fun avg =>
    statsOpenChars ++ natChars s.count ++ statsMidChars ++ avg ++ statsCloseChars)

/-- `exportResults(outputPath, data)` for a stats object: the serialized text
`JSON.stringify(data, null, 2)` that is written to the output file (the disk
write itself is I/O outside the model). -/
def exportResults (data : Stats) : Option String :=
  (statsJsonChars data).map String.mk

/-- Consume an expected literal from the front of the input. -/
def dropLit : List Char → List Char → Option (List Char)
  | [], cs => some cs
  | _ :: _, [] => none
  | l :: ls, c :: cs => if c = l then dropLit ls cs else none

/-- Read a non-empty run of digits from the front of the input and return its
value and the rest. -/
def parseNatPart (cs : List Char) : Option (Nat × List Char) :=
  let ds := cs.takeWhile Char.isDigit
  if ds.isEmpty then none else some (digitsVal ds, cs.dropWhile Char.isDigit)

/-- Read a non-negative decimal numeral (digits, optionally a point and more
digits) and return its rational value and the rest. -/
def parseNNNumPart (cs : List Char) : Option (ℚ × List Char) := do
  let (ip, rest) ← parseNatPart cs
  if rest.head? = some '.' then
    let fs := rest.tail.takeWhile Char.isDigit
    if fs.isEmpty then none
    else some ((ip : ℚ) + (digitsVal fs : ℚ) / (10 : ℚ) ^ fs.length,
      rest.tail.dropWhile Char.isDigit)
  else some ((ip : ℚ), rest)

/-- Read a decimal numeral with optional leading minus sign. -/
def parseNumPart (cs : List Char) : Option (ℚ × List Char) :=
  if cs.head? = some '-' then (parseNNNumPart cs.tail).map (fun p => (-p.1, p.2))
  else parseNNNumPart cs

/-- A decoded `averagePricePerRoom` slot: JSON `null`, a JSON number, or (on
the encoding side only) the `NaN` a stats object may hold — JSON itself has
no `NaN`, so a decoder can never produce `avNaN`. -/
inductive AvgValue where
  | avNull
  | avNum (q : ℚ)
  | avNaN
deriving DecidableEq

/-- The `averagePricePerRoom` slot of a stats object, as a JSON-comparable
value. -/
def avgValueOf (x : JSNum) : AvgValue :=
  match x with
  | .nan => .avNaN
  | .num q => .avNum q

/-- Decode the exported stats text back into its `count` and
`averagePricePerRoom` values. -/
def parseStats (t : String) : Option (Nat × AvgValue) := do
  let cs ← dropLit statsOpenChars t.data
  let (n, cs1) ← parseNatPart cs
  let cs2 ← dropLit statsMidChars cs1
  match dropLit ("null".data) cs2 with
  | some cs3 => do
    let cs4 ← dropLit statsCloseChars cs3
    if cs4 = [] then some (n, AvgValue.avNull) else none
  | none => do
    let (q, cs3) ← parseNumPart cs2
    let cs4 ← dropLit statsCloseChars cs3
    if cs4 = [] then some (n, AvgValue.avNum q) else none

/-- Export-then-decode is a value round trip for the stats object `s`. -/
def RoundTripStats (s : Stats) : Prop :=
  ∃ t, exportResults s = some t ∧
    parseStats t = some (s.count, avgValueOf s.averagePricePerRoom)

/-- A bound slot that does not hold `NaN` (it is either omitted or a finite
number). -/
def numericBound : Option JSNum → Bool
  | some .nan => false
  | _ => true

/-- A criteria object whose supplied bounds are all finite numbers. -/
def NumericCriteria (c : Criteria) : Prop :=
  numericBound c.minPrice = true ∧ numericBound c.maxPrice = true ∧
  numericBound c.minRooms = true ∧ numericBound c.maxRooms = true ∧
  numericBound c.minReview = true ∧ numericBound c.maxReview = true

/-- A listing whose three numeric fields are finite numbers. -/
def NumericListing (l : Listing) : Prop :=
  l.price ≠ JSNum.nan ∧ l.bedrooms ≠ JSNum.nan ∧ l.review_scores_rating ≠ JSNum.nan

instance (c : Criteria) : Decidable (NumericCriteria c) := by
  unfold NumericCriteria
  infer_instance

instance (l : Listing) : Decidable (NumericListing l) := by
  unfold NumericListing
  infer_instance

/-- The specification-side filter condition: every supplied lower bound is
met inclusively (`>=`), every supplied upper bound is met inclusively (`<=`),
and an omitted bound imposes no constraint. -/
def WithinBounds (c : Criteria) (l : Listing) : Prop :=
  (∀ b ∈ c.minPrice, jsGe l.price b = true) ∧
  (∀ b ∈ c.maxPrice, jsLe l.price b = true) ∧
  (∀ b ∈ c.minRooms, jsGe l.bedrooms b = true) ∧
  (∀ b ∈ c.maxRooms, jsLe l.bedrooms b = true) ∧
  (∀ b ∈ c.minReview, jsGe l.review_scores_rating b = true) ∧
  (∀ b ∈ c.maxReview, jsLe l.review_scores_rating b = true)

lemma survivesFilter_true_iff (c : Criteria) (l : Listing) :
    survivesFilter c l = true ↔
      belowBound c.minPrice l.price = false ∧
      aboveBound c.maxPrice l.price = false ∧
      belowBound c.minRooms l.bedrooms = false ∧
      aboveBound c.maxRooms l.bedrooms = false ∧
      belowBound c.minReview l.review_scores_rating = false ∧
      aboveBound c.maxReview l.review_scores_rating = false := by
  cases h1 : belowBound c.minPrice l.price <;>
    cases h2 : aboveBound c.maxPrice l.price <;>
    cases h3 : belowBound c.minRooms l.bedrooms <;>
    cases h4 : aboveBound c.maxRooms l.bedrooms <;>
    cases h5 : belowBound c.minReview l.review_scores_rating <;>
    cases h6 : aboveBound c.maxReview l.review_scores_rating <;>
    simp [survivesFilter, h1, h2, h3, h4, h5, h6]

lemma belowBound_false_iff (b? : Option JSNum) (x : JSNum)
    (hb : numericBound b? = true) (hx : x ≠ JSNum.nan) :
    belowBound b? x = false ↔ ∀ b ∈ b?, jsGe x b = true := by
  cases b? with
  | none => simp [belowBound]
  | some b =>
    cases b with
    | nan => simp [numericBound] at hb
    | num qb =>
      cases x with
      | nan => exact absurd rfl hx
      | num qx => simp [belowBound, jsLt, jsGe, not_lt]

lemma aboveBound_false_iff (b? : Option JSNum) (x : JSNum)
    (hb : numericBound b? = true) (hx : x ≠ JSNum.nan) :
    aboveBound b? x = false ↔ ∀ b ∈ b?, jsLe x b = true := by
  cases b? with
  | none => simp [aboveBound]
  | some b =>
    cases b with
    | nan => simp [numericBound] at hb
    | num qb =>
      cases x with
      | nan => exact absurd rfl hx
      | num qx => simp [aboveBound, jsGt, jsLe, not_lt]

lemma survivesFilter_iff_withinBounds (c : Criteria) (l : Listing)
    (hc : NumericCriteria c) (hl : NumericListing l) :
    survivesFilter c l = true ↔ WithinBounds c l := by
  obtain ⟨hc1, hc2, hc3, hc4, hc5, hc6⟩ := hc
  obtain ⟨hl1, hl2, hl3⟩ := hl
  rw [survivesFilter_true_iff]
  unfold WithinBounds
  rw [belowBound_false_iff _ _ hc1 hl1, aboveBound_false_iff _ _ hc2 hl1,
    belowBound_false_iff _ _ hc3 hl2, aboveBound_false_iff _ _ hc4 hl2,
    belowBound_false_iff _ _ hc5 hl3, aboveBound_false_iff _ _ hc6 hl3]

/-- Claim C1: for every listing set and every criteria object (with finite
bounds and finite listing fields, matching the data model), `filterListings`
keeps exactly those listings that satisfy the conjunction of all supplied
bounds, each bound inclusive, and omitted bounds impose no constraint. -/
theorem filterListings_keeps_exactly_withinBounds (c : Criteria) (L : List Listing)
    (l : Listing) (hc : NumericCriteria c) (hl : NumericListing l) :
    l ∈ filterListings c L ↔ l ∈ L ∧ WithinBounds c l := by
  unfold filterListings
  rw [List.mem_filter]
  exact and_congr_right (fun _ => survivesFilter_iff_withinBounds c l hc hl)

/-- A concrete criteria object used to instantiate C1. -/
def criteriaC1 : Criteria := { minPrice := some (.num 100), maxRooms := some (.num 3) }

/-- A concrete listing used to instantiate C1. -/
def listingC1 : Listing := ⟨.num 150, .num 2, .num 5, some "A"⟩

theorem filterListings_keeps_exactly_withinBounds_witness :
    NumericCriteria criteriaC1 ∧ NumericListing listingC1 ∧
      (listingC1 ∈ filterListings criteriaC1 [listingC1] ↔
        listingC1 ∈ [listingC1] ∧ WithinBounds criteriaC1 listingC1) :=
  ⟨by decide, by decide,
    filterListings_keeps_exactly_withinBounds criteriaC1 [listingC1] listingC1
      (by decide) (by decide)⟩

/-- Claim C7: calling `filterListings` with every bound omitted leaves the
listing set unchanged. -/
theorem filterListings_no_criteria_noop (L : List Listing) : filterListings {} L = L :=
  List.filter_eq_self.mpr (fun _ _ => rfl)

/-- A bound slot that is omitted or holds `NaN`. -/
def nanOnlyBound : Option JSNum → Bool
  | none => true
  | some .nan => true
  | some (.num _) => false

/-- A criteria object in which every supplied bound is `NaN` (as the
front-end produces by applying `Number` to non-numeric user text). -/
def NaNOnlyCriteria (c : Criteria) : Prop :=
  nanOnlyBound c.minPrice = true ∧ nanOnlyBound c.maxPrice = true ∧
  nanOnlyBound c.minRooms = true ∧ nanOnlyBound c.maxRooms = true ∧
  nanOnlyBound c.minReview = true ∧ nanOnlyBound c.maxReview = true

instance (c : Criteria) : Decidable (NaNOnlyCriteria c) := by
  unfold NaNOnlyCriteria
  infer_instance

lemma belowBound_of_nanOnly (b? : Option JSNum) (x : JSNum)
    (h : nanOnlyBound b? = true) : belowBound b? x = false := by
  cases b? with
  | none => rfl
  | some b =>
    cases b with
    | num q => simp [nanOnlyBound] at h
    | nan => cases x <;> rfl

lemma aboveBound_of_nanOnly (b? : Option JSNum) (x : JSNum)
    (h : nanOnlyBound b? = true) : aboveBound b? x = false := by
  cases b? with
  | none => rfl
  | some b =>
    cases b with
    | num q => simp [nanOnlyBound] at h
    | nan => cases x <;> rfl

/-- Claim C10: a criteria object in which every supplied bound is `NaN`
leaves the listing set unchanged — a `NaN` bound behaves exactly like an
omitted bound, because every comparison against `NaN` is false and so never
excludes a listing. -/
theorem filterListings_nan_criteria_noop (c : Criteria) (L : List Listing)
    (h : NaNOnlyCriteria c) : filterListings c L = L := by
  obtain ⟨h1, h2, h3, h4, h5, h6⟩ := h
  refine List.filter_eq_self.mpr (fun l _ => ?_)
  exact (survivesFilter_true_iff c l).mpr
    ⟨belowBound_of_nanOnly _ _ h1, aboveBound_of_nanOnly _ _ h2,
      belowBound_of_nanOnly _ _ h3, aboveBound_of_nanOnly _ _ h4,
      belowBound_of_nanOnly _ _ h5, aboveBound_of_nanOnly _ _ h6⟩

/-- The all-`NaN` criteria object, as produced by the front-end when every
answer is non-numeric non-blank text. -/
def criteriaAllNaN : Criteria :=
  ⟨some .nan, some .nan, some .nan, some .nan, some .nan, some .nan⟩

/-- Concrete listings used to instantiate C10. -/
def listingsC10 : List Listing := [⟨.num 75, .num 1, .num 4, some "H1"⟩, ⟨.nan, .num 2, .num 3, none⟩]

theorem filterListings_nan_criteria_noop_witness :
    NaNOnlyCriteria criteriaAllNaN ∧ filterListings criteriaAllNaN listingsC10 = listingsC10 :=
  ⟨by decide, filterListings_nan_criteria_noop criteriaAllNaN listingsC10 (by decide)⟩

/-- Claim C8: `computeStats`, `computeListingsByHost` and `getListings` are
read-only — any sequence of such calls leaves the store's listing set
unchanged. -/
theorem readOnly_calls_leave_state (ms : List HandlerCall) (L : List Listing)
    (h : ∀ m ∈ ms, readOnlyCall m = true) : runCalls ms L = L := by
  induction ms generalizing L with
  | nil => rfl
  | cons m ms ih =>
    have hm := h m (List.mem_cons_self m ms)
    have hstep : (runCall m L).2 = L := by
      cases m with
      | filterCall c => simp [readOnlyCall] at hm
      | statsCall => rfl
      | byHostCall => rfl
      | getListingsCall => rfl
    show runCalls ms (runCall m L).2 = L
    rw [hstep]
    exact ih L (fun m hm2 => h m (List.mem_cons_of_mem _ hm2))

/-- Concrete listings used to instantiate C8. -/
def listingsC8 : List Listing := [⟨.num 10, .num 1, .num 4, some "X"⟩, ⟨.num 20, .num 2, .num 5, none⟩]

theorem readOnly_calls_leave_state_witness :
    runCalls [HandlerCall.statsCall, HandlerCall.byHostCall, HandlerCall.getListingsCall]
      listingsC8 = listingsC8 :=
  readOnly_calls_leave_state _ listingsC8 (by decide)

/-- The store state after a sequence of `filterListings` calls. -/
def applyFilters (cs : List Criteria) (L : List Listing) : List Listing :=
  cs.foldl (fun S c => filterListings c S) L

lemma applyFilters_cons (c : Criteria) (cs : List Criteria) (L : List Listing) :
    applyFilters (c :: cs) L = applyFilters cs (filterListings c L) := rfl

lemma applyFilters_concat (cs : List Criteria) (c : Criteria) (L : List Listing) :
    applyFilters (cs ++ [c]) L = filterListings c (applyFilters cs L) := by
  simp [applyFilters, List.foldl_append]

lemma applyFilters_sublist (cs : List Criteria) (L : List Listing) :
    List.Sublist (applyFilters cs L) L := by
  induction cs generalizing L with
  | nil => exact List.Sublist.refl L
  | cons c cs ih => exact (ih (filterListings c L)).trans (List.filter_sublist L)

lemma mem_applyFilters_survives (cs : List Criteria) (L : List Listing) (l : Listing)
    (hl : l ∈ applyFilters cs L) : ∀ c ∈ cs, survivesFilter c l = true := by
  induction cs generalizing L with
  | nil => intro c hc; simp at hc
  | cons c' cs ih =>
    intro c hc
    rw [applyFilters_cons] at hl
    rcases List.mem_cons.mp hc with h | h
    · subst h
      have hmem : l ∈ filterListings c L := (applyFilters_sublist cs _).subset hl
      exact (List.mem_filter.mp hmem).2
    · exact ih _ hl c h

/-- Claim C6: filtering is cumulative and monotonic: after any sequence of
`filterListings` calls the listing set is a subsequence of the original (and
one more call yields a subsequence of the current set), sizes are
non-increasing, and every surviving listing passes the filter predicate — and
hence the bound conjunction — of every call in the sequence. -/
theorem filtering_cumulative_monotonic (cs : List Criteria) (L : List Listing) :
    List.Sublist (applyFilters cs L) L ∧
    (applyFilters cs L).length ≤ L.length ∧
    (∀ c, List.Sublist (applyFilters (cs ++ [c]) L) (applyFilters cs L) ∧
      (applyFilters (cs ++ [c]) L).length ≤ (applyFilters cs L).length) ∧
    (∀ l ∈ applyFilters cs L, ∀ c ∈ cs, survivesFilter c l = true) ∧
    (∀ l ∈ applyFilters cs L, NumericListing l →
      ∀ c ∈ cs, NumericCriteria c → WithinBounds c l) := by
  refine ⟨applyFilters_sublist cs L, (applyFilters_sublist cs L).length_le, ?_, ?_, ?_⟩
  · intro c
    rw [applyFilters_concat]
    exact ⟨List.filter_sublist _, (List.filter_sublist _).length_le⟩
  · exact fun l hl => mem_applyFilters_survives cs L l hl
  · intro l hl hnl c hc hnc
    exact (survivesFilter_iff_withinBounds c l hnc hnl).mp
      (mem_applyFilters_survives cs L l hl c hc)

/-- A concrete criteria object used to instantiate C6. -/
def criteriaC6 : Criteria := { minPrice := some (.num 150) }

/-- Concrete listings used to instantiate C6. -/
def listingsC6 : List Listing :=
  [⟨.num 100, .num 1, .num 4, some "A"⟩, ⟨.num 200, .num 2, .num 5, some "B"⟩]

theorem filtering_cumulative_monotonic_witness :
    survivesFilter criteriaC6 ⟨.num 200, .num 2, .num 5, some "B"⟩ = true :=
  (filtering_cumulative_monotonic [criteriaC6] listingsC6).2.2.2.1
    ⟨.num 200, .num 2, .num 5, some "B"⟩ (by with_unfolding_all decide)
    criteriaC6 (by decide)

/-- The rational value of a finite JavaScript number (`0` as a dummy on
`NaN`; only applied under a finiteness hypothesis). -/
def jsToQ : JSNum → ℚ
  | .num q => q
  | .nan => 0

/-- The specification-side sum of the prices of a listing set. -/
def priceSumQ (L : List Listing) : ℚ := (L.map (fun l => jsToQ l.price)).sum

/-- The specification-side sum of the bedroom counts of a listing set. -/
def roomSumQ (L : List Listing) : ℚ := (L.map (fun l => jsToQ l.bedrooms)).sum

lemma foldl_jsAdd (f : Listing → JSNum) (L : List Listing) (a : ℚ)
    (h : ∀ l ∈ L, f l ≠ JSNum.nan) :
    L.foldl (fun sum l => jsAdd sum (f l)) (JSNum.num a) =
      JSNum.num (a + (L.map (fun l => jsToQ (f l))).sum) := by
  induction L generalizing a with
  | nil => simp
  | cons l L ih =>
    have hl : f l ≠ JSNum.nan := h l (List.mem_cons_self l L)
    obtain ⟨q, hq⟩ : ∃ q, f l = JSNum.num q := by
      cases hf : f l with
      | num q => exact ⟨q, rfl⟩
      | nan => exact absurd hf hl
    have hadd : jsAdd (JSNum.num a) (f l) = JSNum.num (a + q) := by rw [hq]; rfl
    have hcast : jsToQ (f l) = q := by rw [hq]; rfl
    rw [List.foldl_cons, hadd, ih (a + q) (fun x hx => h x (List.mem_cons_of_mem _ hx))]
    simp only [List.map_cons, List.sum_cons, hcast, JSNum.num.injEq]
    ring

/-- Claim C4: `computeStats` returns the set's size as `count`, and
`averagePricePerRoom` is the summed price divided by the summed bedroom
count, except that it is `0` when the set is empty or the summed bedroom
count is exactly `0` (in particular the empty set yields
`{count: 0, averagePricePerRoom: 0}`). -/
theorem computeStats_spec (L : List Listing) (h : ∀ l ∈ L, NumericListing l) :
    computeStats L =
      ⟨L.length,
        if L.length = 0 ∨ roomSumQ L = 0 then JSNum.num 0
        else JSNum.num (priceSumQ L / roomSumQ L)⟩ := by
  cases L with
  | nil => rfl
  | cons l₀ L₀ =>
    have hp : ∀ l ∈ l₀ :: L₀, l.price ≠ JSNum.nan := fun l hl => (h l hl).1
    have hb : ∀ l ∈ l₀ :: L₀, l.bedrooms ≠ JSNum.nan := fun l hl => (h l hl).2.1
    unfold computeStats
    dsimp only
    rw [if_pos (show (l₀ :: L₀).length > 0 from by simp)]
    rw [foldl_jsAdd (fun l => l.price) _ 0 hp, foldl_jsAdd (fun l => l.bedrooms) _ 0 hb]
    simp only [zero_add]
    have hps : ((l₀ :: L₀).map (fun l => jsToQ l.price)).sum = priceSumQ (l₀ :: L₀) := rfl
    have hbs : ((l₀ :: L₀).map (fun l => jsToQ l.bedrooms)).sum = roomSumQ (l₀ :: L₀) := rfl
    rw [hps, hbs]
    by_cases hr : roomSumQ (l₀ :: L₀) = 0
    · simp [hr]
    · simp [hr, jsDiv]

/-- Concrete listings used to instantiate C4. -/
def listingsC4 : List Listing :=
  [⟨.num 200, .num 2, .num 5, some "A"⟩, ⟨.num 300, .num 3, .num 4, some "B"⟩]

theorem computeStats_spec_witness :
    computeStats listingsC4 =
      ⟨listingsC4.length,
        if listingsC4.length = 0 ∨ roomSumQ listingsC4 = 0 then JSNum.num 0
        else JSNum.num (priceSumQ listingsC4 / roomSumQ listingsC4)⟩ :=
  computeStats_spec listingsC4 (by decide)


/-- The number of listings of a set whose host key is `k`. -/
def hostCountIn (k : String) (L : List Listing) : Nat :=
  (L.filter (fun l => hostKeyOf l = k)).length

lemma bumpHost_keys (m : List (String × Nat)) (k : String) :
    (bumpHost m k).map Prod.fst =
      if m.any (fun p => p.1 = k) then m.map Prod.fst else m.map Prod.fst ++ [k] := by
  unfold bumpHost
  by_cases h : m.any (fun p => p.1 = k) = true
  · rw [if_pos h, if_pos h, List.map_map]
    refine List.map_congr_left (fun p _ => ?_)
    by_cases h1 : p.1 = k <;> simp [h1]
  · rw [if_neg h, if_neg h]
    simp

lemma mem_bumpHost_ne (m : List (String × Nat)) (k₀ k : String) (c : Nat) (hk : k ≠ k₀) :
    (k, c) ∈ bumpHost m k₀ ↔ (k, c) ∈ m := by
  unfold bumpHost
  by_cases h : m.any (fun p => p.1 = k₀) = true
  · rw [if_pos h]
    simp only [List.mem_map]
    constructor
    · rintro ⟨p, hp, hpe⟩
      by_cases h1 : p.1 = k₀
      · rw [if_pos h1] at hpe
        have h2 : p.1 = k := congrArg Prod.fst hpe
        exact absurd (h2 ▸ h1) hk
      · rw [if_neg h1] at hpe
        exact hpe ▸ hp
    · intro hm
      refine ⟨(k, c), hm, ?_⟩
      rw [if_neg (by simpa using hk)]
  · rw [if_neg h]
    simp only [List.mem_append, List.mem_singleton]
    constructor
    · rintro (h2 | h2)
      · exact h2
      · exact absurd (congrArg Prod.fst h2) hk
    · exact fun h2 => Or.inl h2

lemma mem_bumpHost_self (m : List (String × Nat)) (k₀ : String) (c : Nat) :
    (k₀, c) ∈ bumpHost m k₀ ↔
      (∃ c', (k₀, c') ∈ m ∧ c = c' + 1) ∨ ((∀ p ∈ m, p.1 ≠ k₀) ∧ c = 1) := by
  unfold bumpHost
  by_cases h : m.any (fun p => p.1 = k₀) = true
  · rw [if_pos h]
    have hnot : ¬ (∀ p ∈ m, p.1 ≠ k₀) := by
      rw [List.any_eq_true] at h
      obtain ⟨p, hp, hpk⟩ := h
      intro hall
      exact hall p hp (by simpa using hpk)
    simp only [List.mem_map]
    constructor
    · rintro ⟨p, hp, hpe⟩
      by_cases h1 : p.1 = k₀
      · rw [if_pos h1] at hpe
        left
        refine ⟨p.2, ?_, ?_⟩
        · have hpk : p = (k₀, p.2) := Prod.ext h1 rfl
          exact hpk ▸ hp
        · exact (congrArg Prod.snd hpe).symm
      · rw [if_neg h1] at hpe
        exact absurd (congrArg Prod.fst hpe) h1
    · rintro (⟨c', hc', rfl⟩ | ⟨hall, rfl⟩)
      · refine ⟨(k₀, c'), hc', ?_⟩
        rw [if_pos rfl]
      · exact absurd hall hnot
  · rw [if_neg h]
    have hall : ∀ p ∈ m, p.1 ≠ k₀ := by
      intro p hp hpk
      exact h (List.any_eq_true.mpr ⟨p, hp, by simpa using hpk⟩)
    simp only [List.mem_append, List.mem_singleton]
    constructor
    · rintro (h2 | h2)
      · exact absurd rfl (hall _ h2)
      · right
        exact ⟨hall, congrArg Prod.snd h2⟩
    · rintro (⟨c', hc', rfl⟩ | ⟨_, rfl⟩)
      · exact absurd rfl (hall _ hc')
      · exact Or.inr rfl

lemma hostMapOf_concat (L : List Listing) (l : Listing) :
    hostMapOf (L ++ [l]) = bumpHost (hostMapOf L) (hostKeyOf l) := by
  simp [hostMapOf, List.foldl_append]

lemma hostCountIn_concat (k : String) (L : List Listing) (l : Listing) :
    hostCountIn k (L ++ [l]) = hostCountIn k L + (if hostKeyOf l = k then 1 else 0) := by
  unfold hostCountIn
  rw [List.filter_append, List.length_append]
  congr 1
  by_cases h : hostKeyOf l = k <;> simp [h]

lemma hostMapOf_spec (L : List Listing) :
    (((hostMapOf L).map Prod.fst).Nodup) ∧
    (∀ k c, ((k, c) ∈ hostMapOf L) ↔ (hostCountIn k L = c ∧ c ≠ 0)) := by
  induction L using List.reverseRecOn with
  | nil =>
    constructor
    · simp [hostMapOf]
    · intro k c
      simp [hostMapOf, hostCountIn]
      omega
  | append_singleton L l ih =>
    obtain ⟨ihn, ihm⟩ := ih
    have hany : (hostMapOf L).any (fun p => p.1 = hostKeyOf l) = true ↔
        hostCountIn (hostKeyOf l) L ≠ 0 := by
      rw [List.any_eq_true]
      constructor
      · rintro ⟨p, hp, hpk⟩
        have hpk2 : p.1 = hostKeyOf l := by simpa using hpk
        have := (ihm p.1 p.2).mp (by simpa using hp)
        rw [hpk2] at this
        omega
      · intro h
        refine ⟨(hostKeyOf l, hostCountIn (hostKeyOf l) L), (ihm _ _).mpr ⟨rfl, h⟩, by simp⟩
    constructor
    · rw [hostMapOf_concat, bumpHost_keys]
      by_cases h : (hostMapOf L).any (fun p => p.1 = hostKeyOf l) = true
      · rw [if_pos h]
        exact ihn
      · rw [if_neg h]
        rw [List.nodup_append]
        refine ⟨ihn, List.nodup_singleton _, ?_⟩
        intro k hk
        simp only [List.mem_singleton]
        intro hke
        subst hke
        obtain ⟨p, hp, hpk⟩ := List.mem_map.mp hk
        exact h (List.any_eq_true.mpr ⟨p, hp, by simpa using hpk⟩)
    · intro k c
      rw [hostMapOf_concat, hostCountIn_concat]
      by_cases hk : k = hostKeyOf l
      · subst hk
        rw [mem_bumpHost_self, if_pos rfl]
        constructor
        · rintro (⟨c', hc', rfl⟩ | ⟨hall, rfl⟩)
          · obtain ⟨he, hne⟩ := (ihm (hostKeyOf l) c').mp hc'
            omega
          · have h0 : hostCountIn (hostKeyOf l) L = 0 := by
              by_contra h0
              exact hall _ ((ihm (hostKeyOf l) (hostCountIn (hostKeyOf l) L)).mpr ⟨rfl, h0⟩) rfl
            omega
        · rintro ⟨he, hne⟩
          by_cases h0 : hostCountIn (hostKeyOf l) L = 0
          · right
            constructor
            · intro p hp hpk
              have := (ihm p.1 p.2).mp (by simpa using hp)
              rw [hpk] at this
              omega
            · omega
          · left
            exact ⟨hostCountIn (hostKeyOf l) L, (ihm _ _).mpr ⟨rfl, h0⟩, by omega⟩
      · rw [mem_bumpHost_ne _ _ _ _ hk, ihm k c, if_neg (fun h => hk h.symm)]
        omega

/-- The three-listing example of the claim: hosts A, A, B. -/
def listingsByHostEx : List Listing :=
  [⟨.num 0, .num 0, .num 0, some "A"⟩, ⟨.num 0, .num 0, .num 0, some "A"⟩,
    ⟨.num 0, .num 0, .num 0, some "B"⟩]

/-- Claim C5: `computeListingsByHost` groups the current listings by
`host_id` (substituting `unknown` for a falsy or missing `host_id` at
grouping time only), counts listings per group (each occurring host key
appears exactly once, with its group's size), and returns the pairs sorted
by count descending; in particular hosts `[A, A, B]` produce
`[(A, 2), (B, 1)]`. -/
theorem computeListingsByHost_spec :
    (∀ L : List Listing,
      List.Sorted hostCountGe (computeListingsByHost L) ∧
      (∀ hc ∈ computeListingsByHost L,
        hc.count = hostCountIn hc.host_id L ∧ hc.count ≠ 0) ∧
      ((computeListingsByHost L).map HostCount.host_id).Nodup ∧
      (∀ l ∈ L, hostKeyOf l ∈ (computeListingsByHost L).map HostCount.host_id)) ∧
    computeListingsByHost listingsByHostEx = [⟨"A", 2⟩, ⟨"B", 1⟩] := by
  constructor
  · intro L
    have hperm : List.Perm (computeListingsByHost L)
        ((hostMapOf L).map (fun p => (⟨p.1, p.2⟩ : HostCount))) :=
      List.perm_insertionSort hostCountGe _
    have hmapid : ((hostMapOf L).map (fun p => (⟨p.1, p.2⟩ : HostCount))).map HostCount.host_id
        = (hostMapOf L).map Prod.fst := by
      rw [List.map_map]
      rfl
    obtain ⟨hnodup, hmem⟩ := hostMapOf_spec L
    refine ⟨List.sorted_insertionSort hostCountGe _, ?_, ?_, ?_⟩
    · intro hc hhc
      have : hc ∈ (hostMapOf L).map (fun p => (⟨p.1, p.2⟩ : HostCount)) :=
        hperm.mem_iff.mp hhc
      obtain ⟨p, hp, hpe⟩ := List.mem_map.mp this
      have hpm : (hc.host_id, hc.count) ∈ hostMapOf L := by
        have h1 : p.1 = hc.host_id := congrArg HostCount.host_id hpe
        have h2 : p.2 = hc.count := congrArg HostCount.count hpe
        rw [← h1, ← h2]
        exact hp
      obtain ⟨he, hne⟩ := (hmem _ _).mp hpm
      exact ⟨he.symm, hne⟩
    · rw [(hperm.map HostCount.host_id).nodup_iff, hmapid]
      exact hnodup
    · intro l hl
      have hpos : hostCountIn (hostKeyOf l) L ≠ 0 := by
        have : l ∈ L.filter (fun x => hostKeyOf x = hostKeyOf l) :=
          List.mem_filter.mpr ⟨hl, by simp⟩
        unfold hostCountIn
        intro h0
        rw [List.length_eq_zero] at h0
        rw [h0] at this
        simp at this
      have : (hostKeyOf l, hostCountIn (hostKeyOf l) L) ∈ hostMapOf L :=
        (hmem _ _).mpr ⟨rfl, hpos⟩
      have hb : (⟨hostKeyOf l, hostCountIn (hostKeyOf l) L⟩ : HostCount) ∈
          (hostMapOf L).map (fun p => (⟨p.1, p.2⟩ : HostCount)) :=
        List.mem_map.mpr ⟨_, this, rfl⟩
      exact List.mem_map.mpr ⟨_, hperm.mem_iff.mpr hb, rfl⟩
  · decide

theorem computeListingsByHost_spec_witness :
    (⟨"A", 2⟩ : HostCount).count = hostCountIn "A" listingsByHostEx ∧
      (⟨"A", 2⟩ : HostCount).count ≠ 0 :=
  (computeListingsByHost_spec.1 listingsByHostEx).2.1 ⟨"A", 2⟩ (by decide)

set_option maxRecDepth 8000

/-- Claim C3 counterexample: on the input text `1.2.3` the strip step leaves
the remainder unchanged, `Number()` fails to parse it, and the coerced value
is `NaN` — not `0` as the claim states for a parse failure. -/
theorem coercePrice_failure_not_zero :
    stripNonNumeric "1.2.3" = "1.2.3" ∧ coercePrice "1.2.3" = JSNum.nan ∧
      JSNum.nan ≠ JSNum.num 0 :=
  ⟨by decide, by decide, by decide⟩

/-- Claim C3 (amended): the coercion strips every character other than a
digit or the decimal point and parses the remainder with `Number()`; an empty
remainder parses to `0` (so `abc` coerces to `0`, and `$1,200.50` to
`1200.50`), but a non-empty remainder that is not a valid decimal numeral
parses to `NaN`, not `0`.  The coercion is a total function: it never raises
and never leaves the field missing. -/
theorem coercePrice_spec :
    (∀ s : String, coercePrice s = jsNumberOfText (stripNonNumeric s)) ∧
    (∀ s : String, ∀ c ∈ (stripNonNumeric s).data, c.isDigit = true ∨ c = '.') ∧
    (∀ s : String, (stripNonNumeric s).data = [] → coercePrice s = JSNum.num 0) ∧
    coercePrice "$1,200.50" = JSNum.num (1200.50 : ℚ) ∧
    coercePrice "abc" = JSNum.num 0 ∧
    coercePrice "1.2.3" = JSNum.nan := by
  refine ⟨fun s => rfl, ?_, ?_, by with_unfolding_all decide, by decide, by decide⟩
  · intro s c hc
    have hc2 : c ∈ s.data.filter (fun c => c.isDigit || c = '.') := hc
    have := (List.mem_filter.mp hc2).2
    simpa using this
  · intro s h
    unfold coercePrice jsNumberOfText
    simp [h]

theorem coercePrice_spec_witness : coercePrice "zz" = JSNum.num 0 :=
  coercePrice_spec.2.2.1 "zz" (by decide)

def CSVHasPriceColumn (csvData : String) : Prop := "price" ∈ csvHeaderNames csvData

instance (csvData : String) : Decidable (CSVHasPriceColumn csvData) := by
  unfold CSVHasPriceColumn
  infer_instance

lemma rowLookup_cons (p : String × CellVal) (r : Row) (k : String) :
    rowLookup (p :: r) k = if p.1 = k then some p.2 else rowLookup r k := by
  unfold rowLookup
  by_cases h : p.1 = k <;> simp [List.find?_cons, h]

lemma mkRow_lookup_of_mem (hs : List String) (vs : List String) (k : String) (hk : k ∈ hs) :
    ∃ s, rowLookup (mkRow hs vs) k = some (.text s) := by
  induction hs generalizing vs with
  | nil => simp at hk
  | cons h0 hs ih =>
    have step : ∀ (v : String) (vs' : List String),
        mkRow (h0 :: hs) (v :: vs') = (h0, .text v) :: mkRow hs vs' := fun _ _ => rfl
    cases vs with
    | nil =>
      rw [show mkRow (h0 :: hs) [] = (h0, .text "") :: mkRow hs [] from rfl, rowLookup_cons]
      by_cases he : h0 = k
      · exact ⟨"", by rw [if_pos he]⟩
      · have hk2 : k ∈ hs := by
          rcases List.mem_cons.mp hk with h1 | h1
          · exact absurd h1.symm he
          · exact h1
        obtain ⟨s, hs2⟩ := ih [] hk2
        exact ⟨s, by rw [if_neg he]; exact hs2⟩
    | cons v vs =>
      rw [step v vs, rowLookup_cons]
      by_cases he : h0 = k
      · exact ⟨v, by rw [if_pos he]⟩
      · have hk2 : k ∈ hs := by
          rcases List.mem_cons.mp hk with h1 | h1
          · exact absurd h1.symm he
          · exact h1
        obtain ⟨s, hs2⟩ := ih vs hk2
        exact ⟨s, by rw [if_neg he]; exact hs2⟩

lemma setPrice_lookup (r : Row) (x : JSNum) (s : String)
    (h : rowLookup r "price" = some (.text s)) :
    rowLookup (setPrice r x) "price" = some (.numv x) := by
  induction r with
  | nil => simp [rowLookup] at h
  | cons p r ih =>
    rw [rowLookup_cons] at h
    have hmap : setPrice (p :: r) x =
        (if p.1 = "price" then (p.1, CellVal.numv x) else p) :: setPrice r x := rfl
    rw [hmap, rowLookup_cons]
    by_cases hp : p.1 = "price"
    · simp [hp]
    · simp only [if_neg hp]
      rw [if_neg hp] at h
      exact ih h

lemma coerceRow_of_text (r : Row) (s : String) (h : rowLookup r "price" = some (.text s)) :
    coerceRow r = some (setPrice r (coercePrice s)) := by
  unfold coerceRow
  rw [h]

lemma collectRows_spec (rs : List Row)
    (h : ∀ r ∈ rs, ∃ s, rowLookup r "price" = some (.text s)) :
    ∃ rows, collectRows rs = some rows ∧ rows.length = rs.length ∧
      ∀ r' ∈ rows, ∃ x, rowLookup r' "price" = some (.numv x) := by
  induction rs with
  | nil => exact ⟨[], rfl, rfl, by simp⟩
  | cons r rs ih =>
    obtain ⟨s, hs⟩ := h r (List.mem_cons_self r rs)
    obtain ⟨rows, h1, h2, h3⟩ := ih (fun r2 hr => h r2 (List.mem_cons_of_mem _ hr))
    refine ⟨setPrice r (coercePrice s) :: rows, ?_, by simp [h2], ?_⟩
    · unfold collectRows
      rw [coerceRow_of_text r s hs, h1]
      rfl
    · intro r' hr'
      rcases List.mem_cons.mp hr' with h4 | h4
      · subst h4
        exact ⟨coercePrice s, setPrice_lookup r _ s hs⟩
      · exact h3 r' h4

/-- Claim C2 (amended): for every well-formed delimited input whose header
names a `price` column, parsing produces exactly one listing per non-empty
data row, and in every produced listing the `price` field is present and
numeric.  The `bedrooms` and `review_scores_rating` fields are not coerced —
they stay raw text (see the counterexample theorem). -/
theorem parseCSV_spec (csvData : String) (h : CSVHasPriceColumn csvData) :
    ∃ rows, parseCSV csvData = some rows ∧ rows.length = dataRowCount csvData ∧
      ∀ r ∈ rows, ∃ x, rowLookup r "price" = some (.numv x) := by
  unfold CSVHasPriceColumn csvHeaderNames at h
  unfold parseCSV dataRowCount
  cases hsp : splitCSVLines csvData with
  | nil =>
    rw [hsp] at h
    simp at h
  | cons headerLine rest =>
    rw [hsp] at h
    obtain ⟨rows, h1, h2, h3⟩ :=
      collectRows_spec
        ((rest.filter (fun l => l ≠ [])).map
          (fun line => mkRow ((splitOnChar ',' headerLine).map String.mk)
            ((splitOnChar ',' line).map String.mk)))
        (by
          intro r hr
          obtain ⟨line, _, rfl⟩ := List.mem_map.mp hr
          exact mkRow_lookup_of_mem _ _ _ h)
    refine ⟨rows, h1, ?_, h3⟩
    rw [h2, List.length_map]

def csvC2 : String := "price,bedrooms,review_scores_rating\n100,2,4.5"

def rowC2 : Row :=
  [("price", .numv (.num 100)), ("bedrooms", .text "2"),
    ("review_scores_rating", .text "4.5")]

/-- The claim's "numeric field" property for one row field: the field is
present and holds a number, not raw text. -/
def NumericRowField (r : Row) (k : String) : Prop :=
  ∃ x, rowLookup r k = some (.numv x)

/-- Claim C2 counterexample: a well-formed one-row input for which the
produced listing's `bedrooms` field is the raw text `"2"`, not a number —
refuting "all three numeric fields are of numeric type". -/
theorem parseCSV_bedrooms_left_as_text :
    parseCSV csvC2 = some [rowC2] ∧
      rowLookup rowC2 "bedrooms" = some (.text "2") ∧
      ¬ NumericRowField rowC2 "bedrooms" := by
  refine ⟨by with_unfolding_all decide, by decide, ?_⟩
  rintro ⟨x, hx⟩
  rw [show rowLookup rowC2 "bedrooms" = some (.text "2") from by decide] at hx
  simp at hx

theorem parseCSV_spec_witness :
    ∃ rows, parseCSV csvC2 = some rows ∧ rows.length = dataRowCount csvC2 ∧
      ∀ r ∈ rows, ∃ x, rowLookup r "price" = some (.numv x) :=
  parseCSV_spec csvC2 (by decide)

lemma dropLit_self (l cs : List Char) : dropLit l (l ++ cs) = some cs := by
  induction l with
  | nil => rfl
  | cons c l ih => simp [dropLit, ih]

lemma dropLit_none_head (c0 : Char) (ls cs : List Char) (c : Char) (h : c ≠ c0) :
    dropLit (c0 :: ls) (c :: cs) = none := by
  simp [dropLit, h]

lemma natDigitsRev_eq (fuel n : Nat) (h : n ≤ fuel) : natDigitsRev fuel n = Nat.digits 10 n := by
  induction fuel generalizing n with
  | zero =>
    interval_cases n
    simp [natDigitsRev]
  | succ fuel ih =>
    by_cases hn : n = 0
    · simp [natDigitsRev, hn]
    · rw [natDigitsRev, if_neg hn,
        Nat.digits_def' (by norm_num : 1 < 10) (Nat.pos_of_ne_zero hn), ih (n / 10) (by omega)]

lemma digitChar10_isDigit (d : Nat) (h : d < 10) : (digitChar10 d).isDigit = true := by
  interval_cases d <;> rfl

lemma digitChar10_toNat (d : Nat) (h : d < 10) : (digitChar10 d).toNat - 48 = d := by
  interval_cases d <;> rfl

lemma natChars_all_digits (n : Nat) : ∀ c ∈ natChars n, c.isDigit = true := by
  intro c hc
  unfold natChars at hc
  by_cases hn : n = 0
  · rw [if_pos hn] at hc
    simp at hc
    rw [hc]
    rfl
  · rw [if_neg hn, natDigitsRev_eq n n (le_refl n)] at hc
    obtain ⟨d, hd, rfl⟩ := List.mem_map.mp hc
    exact digitChar10_isDigit d (Nat.digits_lt_base (by norm_num) (List.mem_reverse.mp hd))

lemma natChars_ne_nil (n : Nat) : natChars n ≠ [] := by
  unfold natChars
  by_cases hn : n = 0
  · simp [hn]
  · rw [if_neg hn]
    simp only [ne_eq, List.map_eq_nil_iff, List.reverse_eq_nil_iff]
    rw [natDigitsRev_eq n n (le_refl n)]
    exact Nat.digits_ne_nil_iff_ne_zero.mpr hn

lemma digitsVal_natChars (n : Nat) : digitsVal (natChars n) = n := by
  unfold natChars digitsVal
  by_cases hn : n = 0
  · simp [hn, Nat.ofDigits]
  · rw [if_neg hn, natDigitsRev_eq n n (le_refl n)]
    rw [List.map_map, List.map_reverse, List.reverse_reverse]
    have hmap : (Nat.digits 10 n).map ((fun c => c.toNat - 48) ∘ digitChar10) =
        (Nat.digits 10 n).map id := by
      refine List.map_congr_left (fun d hd => ?_)
      exact digitChar10_toNat d (Nat.digits_lt_base (by norm_num) hd)
    rw [hmap, List.map_id, Nat.ofDigits_digits]

lemma takeWhile_append_exact (p : Char → Bool) (xs ys : List Char) (y : Char)
    (hxs : ∀ x ∈ xs, p x = true) (hy : p y = false) :
    (xs ++ y :: ys).takeWhile p = xs ∧ (xs ++ y :: ys).dropWhile p = y :: ys := by
  induction xs with
  | nil => simp [List.takeWhile, List.dropWhile, hy]
  | cons x xs ih =>
    have hx : p x = true := hxs x (List.mem_cons_self x xs)
    obtain ⟨ih1, ih2⟩ := ih (fun a ha => hxs a (List.mem_cons_of_mem _ ha))
    constructor
    · rw [List.cons_append, List.takeWhile_cons, hx]
      simp [ih1]
    · rw [List.cons_append, List.dropWhile_cons, hx]
      simp [ih2]

lemma parseNatPart_exact (n : Nat) (y : Char) (ys : List Char) (hy : y.isDigit = false) :
    parseNatPart (natChars n ++ y :: ys) = some (n, y :: ys) := by
  obtain ⟨h1, h2⟩ := takeWhile_append_exact Char.isDigit (natChars n) ys y
    (natChars_all_digits n) hy
  unfold parseNatPart
  rw [h1, h2]
  rw [if_neg (by simpa using natChars_ne_nil n)]
  rw [digitsVal_natChars]

lemma digitsVal_replicate_zero (k : Nat) (ds : List Char) :
    digitsVal (List.replicate k '0' ++ ds) = digitsVal ds := by
  unfold digitsVal
  rw [List.map_append, List.reverse_append]
  have hz : (List.replicate k '0').map (fun c => c.toNat - 48) = List.replicate k 0 := by
    rw [List.map_replicate]
    rfl
  rw [hz, List.reverse_replicate]
  rw [Nat.ofDigits_append]
  have : Nat.ofDigits 10 (List.replicate k 0) = 0 := by
    induction k with
    | zero => rfl
    | succ k ih => simp [List.replicate_succ, Nat.ofDigits_cons, ih]
  simp [this]

lemma natChars_length_le (m e : Nat) (hm : m < 10 ^ e) (he : 1 ≤ e) :
    (natChars m).length ≤ e := by
  unfold natChars
  by_cases h0 : m = 0
  · simpa [h0] using he
  · rw [if_neg h0, List.length_map, List.length_reverse, natDigitsRev_eq m m (le_refl m)]
    by_contra hc
    push_neg at hc
    have h2 := Nat.base_pow_length_digits_le 10 m (by norm_num) h0
    have h3 : 10 ^ (e + 1) ≤ 10 ^ (Nat.digits 10 m).length :=
      Nat.pow_le_pow_right (by norm_num) hc
    have h4 : 10 ^ e * 10 ≤ 10 * m := by
      calc 10 ^ e * 10 = 10 ^ (e + 1) := by ring
        _ ≤ 10 ^ (Nat.digits 10 m).length := h3
        _ ≤ 10 * m := h2
    omega

lemma ratDecExp_spec (q : ℚ) (e : Nat) (h : ratDecExp q = some e) :
    (q * (10 : ℚ) ^ e).den = 1 := by
  have := List.find?_some h
  simpa using this

lemma num_toNat_cast (q : ℚ) (hq : 0 ≤ q) (h : q.den = 1) : ((q.num.toNat : ℚ)) = q := by
  have h1 : (q.num : ℚ) = q := Rat.coe_int_num_of_den_eq_one h
  have h2 : 0 ≤ q.num := Rat.num_nonneg.mpr hq
  rw [show ((q.num.toNat : ℚ)) = ((q.num.toNat : ℤ) : ℚ) from by push_cast; ring,
    Int.toNat_of_nonneg h2, h1]

lemma parseNNNumPart_exact (q : ℚ) (t : List Char) (y : Char) (ys : List Char)
    (hq : 0 ≤ q) (ht : nnRatChars q = some t)
    (hy : y.isDigit = false) (hy2 : y ≠ '.') :
    parseNNNumPart (t ++ y :: ys) = some (q, y :: ys) := by
  unfold nnRatChars at ht
  cases hde : ratDecExp q with
  | none => rw [hde] at ht; simp at ht
  | some e =>
    rw [hde] at ht
    dsimp only at ht
    have hden : (q * (10 : ℚ) ^ e).den = 1 := ratDecExp_spec q e hde
    by_cases he : e = 0
    · rw [if_pos he] at ht
      injection ht with ht2
      subst ht2
      have hq1 : q.den = 1 := by
        rw [he] at hden
        simpa using hden
      unfold parseNNNumPart
      rw [parseNatPart_exact q.num.toNat y ys hy]
      simp only [Option.bind_eq_bind, Option.some_bind]
      rw [if_neg (by simp [hy2])]
      rw [num_toNat_cast q hq hq1]
    · rw [if_neg he] at ht
      injection ht with ht2
      subst ht2
      have h10 : (0 : ℚ) < (10 : ℚ) ^ e := by positivity
      have hNnn : 0 ≤ q * (10 : ℚ) ^ e := mul_nonneg hq (le_of_lt h10)
      have hNq : (((q * (10 : ℚ) ^ e).num.toNat : ℚ)) = q * (10 : ℚ) ^ e :=
        num_toNat_cast _ hNnn hden
      set N := (q * (10 : ℚ) ^ e).num.toNat with hNdef
      set frac := natChars (N % 10 ^ e) with hfrac
      set pad := List.replicate (e - frac.length) '0' with hpad
      have hdigits : ∀ c ∈ pad ++ frac, c.isDigit = true := by
        intro c hc
        rcases List.mem_append.mp hc with h1 | h1
        · rw [List.eq_of_mem_replicate h1]
          rfl
        · exact natChars_all_digits _ c h1
      have hlenfrac : frac.length ≤ e := by
        refine natChars_length_le _ e (Nat.mod_lt N (by positivity)) ?_
        omega
      have hlen : (pad ++ frac).length = e := by
        rw [List.length_append, hpad, List.length_replicate]
        omega
      have hassoc : (natChars (N / 10 ^ e) ++ '.' :: (pad ++ frac)) ++ y :: ys =
          natChars (N / 10 ^ e) ++ '.' :: ((pad ++ frac) ++ y :: ys) := by
        simp [List.append_assoc]
      rw [hassoc]
      unfold parseNNNumPart
      rw [parseNatPart_exact (N / 10 ^ e) '.' _ (by rfl)]
      simp only [Option.bind_eq_bind, Option.some_bind]
      rw [if_pos (by rfl)]
      obtain ⟨htw, hdw⟩ := takeWhile_append_exact Char.isDigit (pad ++ frac) ys y hdigits hy
      simp only [List.tail_cons]
      rw [htw, hdw]
      have hne : ((10 : ℚ) ^ e) ≠ 0 := ne_of_gt h10
      have hempty : ¬((pad ++ frac).isEmpty = true) := by
        rw [List.isEmpty_iff]
        intro hnil
        rw [hnil] at hlen
        exact he (by simpa using hlen.symm)
      rw [if_neg hempty]
      have hval : digitsVal (pad ++ frac) = N % 10 ^ e := by
        rw [hpad, hfrac, digitsVal_replicate_zero, digitsVal_natChars]
      rw [hval, hlen]
      have hmod : 10 ^ e * (N / 10 ^ e) + N % 10 ^ e = N := Nat.div_add_mod N (10 ^ e)
      have hsplit : (10 : ℚ) ^ e * ((N / 10 ^ e : ℕ) : ℚ) + ((N % 10 ^ e : ℕ) : ℚ) = (N : ℚ) := by
        exact_mod_cast hmod
      have hq_eq : q = (N : ℚ) / (10 : ℚ) ^ e := (eq_div_iff hne).mpr hNq.symm
      have hgoal : ((N / 10 ^ e : ℕ) : ℚ) + ((N % 10 ^ e : ℕ) : ℚ) / (10 : ℚ) ^ e = q := by
        rw [hq_eq]
        field_simp
        linear_combination hsplit
      rw [hgoal]

lemma natChars_head (n : Nat) :
    ∃ c cs, natChars n = c :: cs ∧ c.isDigit = true := by
  cases hn : natChars n with
  | nil => exact absurd hn (natChars_ne_nil n)
  | cons c cs =>
    exact ⟨c, cs, rfl, natChars_all_digits n c (hn ▸ List.mem_cons_self c cs)⟩

lemma nnRatChars_head (q : ℚ) (t : List Char) (h : nnRatChars q = some t) :
    ∃ c cs, t = c :: cs ∧ c.isDigit = true := by
  unfold nnRatChars at h
  cases hde : ratDecExp q with
  | none => rw [hde] at h; simp at h
  | some e =>
    rw [hde] at h
    dsimp only at h
    by_cases he : e = 0
    · rw [if_pos he] at h
      injection h with h2
      obtain ⟨c, cs, hc, hd⟩ := natChars_head q.num.toNat
      exact ⟨c, cs, h2 ▸ hc, hd⟩
    · rw [if_neg he] at h
      injection h with h2
      obtain ⟨c, cs, hc, hd⟩ := natChars_head ((q * (10 : ℚ) ^ e).num.toNat / 10 ^ e)
      refine ⟨c, cs ++ '.' :: (List.replicate
        (e - (natChars ((q * (10 : ℚ) ^ e).num.toNat % 10 ^ e)).length) '0' ++
        natChars ((q * (10 : ℚ) ^ e).num.toNat % 10 ^ e)), ?_, hd⟩
      rw [← h2, hc]
      rfl

lemma ratChars_head (q : ℚ) (t : List Char) (h : ratChars q = some t) :
    ∃ c cs, t = c :: cs ∧ (c.isDigit = true ∨ c = '-') := by
  unfold ratChars at h
  by_cases hneg : q < 0
  · rw [if_pos hneg] at h
    cases hnn : nnRatChars (-q) with
    | none => rw [hnn] at h; simp at h
    | some t2 =>
      rw [hnn] at h
      simp only [Option.map_some'] at h
      injection h with h2
      exact ⟨'-', t2, h2.symm, Or.inr rfl⟩
  · rw [if_neg hneg] at h
    obtain ⟨c, cs, hc, hd⟩ := nnRatChars_head q t h
    exact ⟨c, cs, hc, Or.inl hd⟩

lemma parseNumPart_exact (q : ℚ) (t : List Char) (y : Char) (ys : List Char)
    (ht : ratChars q = some t) (hy : y.isDigit = false) (hy2 : y ≠ '.') :
    parseNumPart (t ++ y :: ys) = some (q, y :: ys) := by
  unfold ratChars at ht
  by_cases hneg : q < 0
  · rw [if_pos hneg] at ht
    cases hnn : nnRatChars (-q) with
    | none => rw [hnn] at ht; simp at ht
    | some t2 =>
      rw [hnn] at ht
      simp only [Option.map_some'] at ht
      injection ht with ht2
      rw [← ht2]
      unfold parseNumPart
      rw [if_pos (by rfl)]
      simp only [List.cons_append, List.tail_cons]
      rw [parseNNNumPart_exact (-q) t2 y ys (by linarith) hnn hy hy2]
      simp
  · rw [if_neg hneg] at ht
    obtain ⟨c, cs, hc, hd⟩ := nnRatChars_head q t ht
    unfold parseNumPart
    have hne : (t ++ y :: ys).head? ≠ some '-' := by
      rw [hc]
      simp only [List.cons_append, List.head?_cons]
      intro hcontra
      have : c = '-' := by simpa using hcontra
      rw [this] at hd
      simp at hd
    rw [if_neg hne]
    exact parseNNNumPart_exact q t y ys (le_of_not_lt hneg) ht hy hy2

lemma parseStats_build (c : Nat) (q : ℚ) (avg : List Char) (havg : ratChars q = some avg) :
    parseStats (String.mk (statsOpenChars ++ natChars c ++ statsMidChars ++ avg ++
      statsCloseChars)) = some (c, AvgValue.avNum q) := by
  have hmid : statsMidChars = ',' :: "\n  \"averagePricePerRoom\": ".data := rfl
  have hclose : statsCloseChars = '\n' :: "\x7d".data := rfl
  have e2 : parseNatPart (natChars c ++ (statsMidChars ++ (avg ++ statsCloseChars))) =
      some (c, statsMidChars ++ (avg ++ statsCloseChars)) := by
    rw [hmid, List.cons_append]
    exact parseNatPart_exact c ',' _ (by rfl)
  have e4 : dropLit ("null".data) (avg ++ statsCloseChars) = none := by
    obtain ⟨c0, cs0, hc0, hd0⟩ := ratChars_head q avg havg
    rw [hc0, List.cons_append]
    have hne : c0 ≠ 'n' := by
      rcases hd0 with hdig | hdash
      · intro hcon
        rw [hcon] at hdig
        simp at hdig
      · rw [hdash]
        decide
    exact dropLit_none_head 'n' _ _ c0 hne
  have e5 : parseNumPart (avg ++ statsCloseChars) = some (q, statsCloseChars) := by
    rw [hclose]
    exact parseNumPart_exact q avg '\n' _ havg (by rfl) (by decide)
  have e6 : dropLit statsCloseChars statsCloseChars = some [] := by
    have := dropLit_self statsCloseChars []
    rwa [List.append_nil] at this
  unfold parseStats
  have hdata : (String.mk (statsOpenChars ++ natChars c ++ statsMidChars ++ avg ++
      statsCloseChars)).data =
      statsOpenChars ++ (natChars c ++ (statsMidChars ++ (avg ++ statsCloseChars))) := by
    show statsOpenChars ++ natChars c ++ statsMidChars ++ avg ++ statsCloseChars = _
    simp [List.append_assoc]
  rw [hdata, dropLit_self]
  simp only [Option.bind_eq_bind, Option.some_bind]
  rw [e2]
  simp only [Option.some_bind]
  rw [dropLit_self]
  simp only [Option.some_bind]
  rw [e4, e5]
  simp only [Option.some_bind]
  rw [e6]
  simp only [Option.some_bind, if_pos]

/-- Claim C9 (amended): exporting a stats object whose `averagePricePerRoom`
is a finite number with `exportResults` (pretty-printed JSON, 2-space
indentation) and decoding the exported text reproduces the original
`(count, averagePricePerRoom)` pair exactly.  The hypothesis that the
serialized text exists is the model-side counterpart of finiteness: every
finite double is a dyadic rational, whose decimal expansion terminates, so a
real JavaScript run always satisfies it.  A `NaN` average is serialized as
`null` and does not round-trip (see the counterexample theorem). -/
theorem exportResults_stats_roundTrip (c : Nat) (q : ℚ)
    (h : (exportResults ⟨c, JSNum.num q⟩).isSome = true) :
    RoundTripStats ⟨c, JSNum.num q⟩ := by
  obtain ⟨t, ht⟩ := Option.isSome_iff_exists.mp h
  refine ⟨t, ht, ?_⟩
  unfold exportResults statsJsonChars at ht
  simp only [jsonNumChars] at ht
  cases hr : ratChars q with
  | none =>
    rw [hr] at ht
    simp at ht
  | some avg =>
    rw [hr] at ht
    simp only [Option.map_some'] at ht
    injection ht with ht2
    rw [← ht2]
    exact parseStats_build c q avg hr

theorem exportResults_stats_roundTrip_witness : RoundTripStats ⟨2, JSNum.num (100.5 : ℚ)⟩ :=
  exportResults_stats_roundTrip 2 (100.5 : ℚ) (by with_unfolding_all decide)

/-- Claim C9 counterexample: the stats object `{count: 1,
averagePricePerRoom: NaN}` (reachable whenever a listing's price text
strips to a malformed numeral) is serialized with `null` in the
`averagePricePerRoom` slot, and decoding the exported text yields `null`,
not the original `NaN` — the round trip fails. -/
theorem exportResults_nan_not_roundTrip : ¬ RoundTripStats ⟨1, JSNum.nan⟩ := by
  rintro ⟨t, h1, h2⟩
  have hT : exportResults ⟨1, JSNum.nan⟩ =
      some "\x7b\n  \"count\": 1,\n  \"averagePricePerRoom\": null\n\x7d" := by decide
  rw [hT] at h1
  injection h1 with h1
  rw [← h1] at h2
  have hP : parseStats "\x7b\n  \"count\": 1,\n  \"averagePricePerRoom\": null\n\x7d" =
      some (1, AvgValue.avNull) := by decide
  rw [hP] at h2
  have : AvgValue.avNull = AvgValue.avNaN := by
    injection h2 with h3
    exact congrArg Prod.snd h3
  simp at this
